import Mathlib

/-!
Shallow embedding of the `uw-stats` repository (miner/miner.py and
stats/scraper.py) together with proofs about the claims of its
specification.  Python strings are modelled as Lean `String`s (lists of
characters), machine-independent integers as `Nat`, fallible code as
`Option`/`Except`.
-/

namespace UwStats

/-- ASCII decimal digit character for a value below ten; used to mirror how
Python renders each digit of a nonnegative int in `str()` / f-strings. -/
def digitChar : Nat → Char
  | 0 => '0'
  | 1 => '1'
  | 2 => '2'
  | 3 => '3'
  | 4 => '4'
  | 5 => '5'
  | 6 => '6'
  | 7 => '7'
  | 8 => '8'
  | 9 => '9'
  | _ => '*'

/-- Numeric value of an ASCII digit character. -/
def dval (c : Char) : Nat := c.toNat - 48

/-- Value of a most-significant-first list of decimal digit characters, as
Python's `int()` computes it on a digit string. -/
def digitsVal (ds : List Char) : Nat := ds.foldl (fun a c => 10 * a + dval c) 0

/-- Mirror of Python's `str.isdigit` on the ASCII range (code points 48-57).
The scraped data only ever contains ASCII digits. -/
def pyIsDigit (c : Char) : Bool := decide (48 ≤ c.toNat ∧ c.toNat ≤ 57)

/-- Fuelled decimal rendering of a natural number, most significant digit
first.  The fuel only serves to make the recursion structural; `natDecimal`
supplies enough of it for any input. -/
def natDecimalAux : Nat → Nat → List Char
  | 0, _ => []
  | fuel + 1, n =>
    if n < 10 then [digitChar n]
    else natDecimalAux fuel (n / 10) ++ [digitChar (n % 10)]

/-- Decimal rendering of a natural number, mirroring Python's `str(n)` on a
nonnegative int. -/
def natDecimal (n : Nat) : List Char := natDecimalAux (n + 1) n

/-- Mirror of Python's `\s` character class on the ASCII range (space, tab,
newline, carriage return, vertical tab, form feed). -/
def pyIsSpace (c : Char) : Bool :=
  decide (c = ' ' ∨ c = '\t' ∨ c = '\n' ∨ c = '\r' ∨ c = '\x0b' ∨ c = '\x0c')

/-- Mirror of Python's `string.punctuation`: the 32 ASCII punctuation
characters, i.e. code points 33-47, 58-64, 91-96 and 123-126. -/
def pyIsPunct (c : Char) : Bool :=
  decide ((33 ≤ c.toNat ∧ c.toNat ≤ 47) ∨ (58 ≤ c.toNat ∧ c.toNat ≤ 64) ∨
    (91 ≤ c.toNat ∧ c.toNat ≤ 96) ∨ (123 ≤ c.toNat ∧ c.toNat ≤ 126))

/-- Delimiter class of the scraper's word splitter: whitespace or
punctuation, mirroring the regex `[\s<string.punctuation>]`. -/
def pyDelim (c : Char) : Bool := pyIsSpace c || pyIsPunct c

/-- Mirror of Python's `re.split` with a single-character pattern class:
cuts the character list at every delimiter character, keeping the (possibly
empty) chunks between consecutive delimiters. -/
def pySplit (p : Char → Bool) : List Char → List (List Char)
  | [] => [[]]
  | c :: cs =>
    match pySplit p cs with
    | [] => [[c]]
    | t :: ts => if p c then [] :: t :: ts else (c :: t) :: ts

/-- Embedding of `scraper._count_words`: the length of the full split list
(note: Python's `len(re.split(...))` also counts empty chunks). -/
def count_words (s : String) : Nat := (pySplit pyDelim s.data).length

/-- Word count as the specification words it: the number of non-empty
tokens of the split on whitespace and punctuation; `count_words` is
compared against this in the refinement theorem. -/
def spec_word_count (s : String) : Nat :=
  ((pySplit pyDelim s.data).filter fun t => decide (t ≠ [])).length

/-- Embedding of `miner.get_url_for_page`: appends `page-<n>/` to the base
thread address, as `base_url + f"page-{page_num}/"` does. -/
def get_url_for_page (base_url : String) (page_num : Nat) : String :=
  base_url ++ "page-" ++ String.mk (natDecimal page_num) ++ "/"

/-- Backward digit scan of `miner.get_page_from_url`: the list argument is
the url reversed, the fuel is the number of loop iterations left
(`range(1, max)` performs at most `max - 1` of them).  `none` models the
uncaught `IndexError` raised when `url[-i]` runs past the start of the
string. -/
def pageScan : Nat → List Char → Option (List Char)
  | 0, _ => some []
  | _ + 1, [] => none
  | fuel + 1, c :: cs =>
    if pyIsDigit c then (pageScan fuel cs).map (fun num => c :: num) else some []

/-- Embedding of `miner.get_page_from_url` with its default `max` of
1,000,000: a url whose last character is the path separator is page 1;
otherwise the trailing digits, collected right to left and reversed, are
parsed as the page number.  `none` models an uncaught Python exception
(`IndexError` on an empty or all-digit url, `ValueError` when `int` is
applied to an empty digit string). -/
def get_page_from_url (url : String) : Option Nat :=
  match url.data.getLast? with
  | none => none
  | some c =>
    if c = '/' then some 1
    else
      match pageScan 999999 url.data.reverse with
      | none => none
      | some num => if num = [] then none else some (digitsVal num.reverse)

/-- First maximal run of decimal digits in a character list, mirroring
`re.findall(r"\d+", s)[0]`; `none` models the `IndexError` raised when no
digit occurs at all. -/
def firstRun : List Char → Option (List Char)
  | [] => none
  | c :: cs => if pyIsDigit c then some (c :: cs.takeWhile pyIsDigit) else firstRun cs

/-- First run of digits of a string, parsed as a number:
`int(re.findall(r"\d+", s)[0])`. -/
def firstNat (s : String) : Option Nat := (firstRun s.data).map digitsVal

/-- Mirror of Python's `str.zfill`: pad on the left with `0` up to the
requested width. -/
def zfill (width : Nat) (s : List Char) : List Char :=
  List.replicate (width - s.length) '0' ++ s

/-- The file name `miner.save_page` writes a page to:
`f"page_.....html"` with the page number zero-filled to width 4. -/
def page_filename (page_num : Nat) : String :=
  String.mk ("page_".data ++ (zfill 4 (natDecimal page_num) ++ ".html".data))

/-- Embedding of `miner.save_page` as the (file name, content) pair it
persists into the working directory. -/
def save_page (html : String) (page_num : Nat) : String × String :=
  (page_filename page_num, html)

/-- Lexicographic comparison of two character lists by code point, exactly
as Python compares two strings: the first differing position decides, a
proper prefix sorts first. -/
def listLtb : List Char → List Char → Bool
  | [], [] => false
  | [], _ :: _ => true
  | _ :: _, [] => false
  | c :: cs, d :: ds => if c < d then true else if d < c then false else listLtb cs ds

/-- Insertion of a string into a lexicographically sorted list; together
with `sortStrings` this models Python's `sorted` on the file names of a
directory listing. -/
def insertSorted (s : String) : List String → List String
  | [] => [s]
  | t :: ts => if listLtb t.data s.data then t :: insertSorted s ts else s :: t :: ts

/-- Mirror of Python's `sorted` on a list of strings (the entries of the
working directory). -/
def sortStrings (l : List String) : List String := l.foldr insertSorted []

/-- Error message `fetch_new_pages` raises on an empty working dir. -/
def emptyDirMessage : String :=
  "Working dir is empty, use a different function for downloading all pages together."

/-- Embedding of `miner.fetch_new_pages`: `files` is the directory listing
(file names of the existing page files), `last_page` the resolved last page
of the thread; the result is the list of page numbers that get fetched and
saved (`range(last_available_page, last_page + 1)`), or the raised
exception.  The second error case models the uncaught `IndexError` when the
lexicographically greatest file name contains no digits. -/
def fetch_new_pages (files : List String) (last_page : Nat) : Except String (List Nat) :=
  match (sortStrings files).getLast? with
  | none => Except.error emptyDirMessage
  | some name =>
    match firstNat name with
    | none => Except.error "IndexError"
    | some last_available =>
        Except.ok (List.range' last_available (last_page + 1 - last_available))

/-- Embedding of `miner.fetch_and_save`: fetch one page url and save the
body under the page's file name.  The network is modelled by the pure
function `fetch` from url to response body. -/
def fetch_and_save (fetch : String → String) (base_url : String) (page_num : Nat) :
    String × String :=
  save_page (fetch (get_url_for_page base_url page_num)) page_num

/-- Embedding of `miner.fetch_and_save_pages_linearly`: pages are fetched
and persisted strictly in the order of the `pages` list. -/
def fetch_and_save_pages_linearly (fetch : String → String) (base_url : String)
    (pages : List Nat) : List (String × String) :=
  pages.map (fetch_and_save fetch base_url)

set_option linter.unusedVariables false in
/-- Embedding of `miner.fetch_and_save_pages_concurrently`: one thread per
entry of `pages` is started and then joined.  Each thread performs the same
`fetch_and_save` as the linear mode on its own page; the scheduler only
decides the order in which the independent file writes land, modelled by
`completion_order` (constrained to be a permutation of `pages` in the
theorems below). -/
def fetch_and_save_pages_concurrently (fetch : String → String) (base_url : String)
    (pages completion_order : List Nat) : List (String × String) :=
  completion_order.map (fetch_and_save fetch base_url)

/-- Shallow model of a reactions bar (`a.reactionsBar-link` in the message
markup): the number of `bdi` user-name elements it contains, and the text
remaining once those elements are decomposed. -/
structure ReactionsBar where
  bdi_count : Nat
  stripped_text : String

/-- Embedding of `scraper.get_amount_of_likes`; `none` models a message
without a reactions bar. -/
def get_amount_of_likes (likes_bar : Option ReactionsBar) : Nat :=
  match likes_bar with
  | none => 0
  | some bar =>
    if bar.bdi_count < 3 then bar.bdi_count
    else
      match firstNat bar.stripped_text with
      | some extra => extra + bar.bdi_count
      | none => bar.bdi_count

/-- Python's single-character `str.upper` on the ASCII range, as applied to
`content[0]` by `check_rules_compliance`. -/
def pyUpperChar (c : Char) : Char :=
  if 97 ≤ c.toNat ∧ c.toNat ≤ 122 then Char.ofNat (c.toNat - 32) else c

/-- The allow-list `punctuational_textual_emotes_and_symbols` of
`check_rules_compliance`. -/
def textual_emotes : List String := ["-", "xD", "x.x", ":c", "o7", ":3", "q.q", ":0"]

/-- Mirror of Python's `str.endswith`. -/
def pyEndsWith (s suf : String) : Bool := suf.data.isSuffixOf s.data

/-- The three named checks of `check_rules_compliance`, mirroring the
`compliance` dict the Python code updates in place (insertion order:
`word_count`, `first_letter`, `punctuation`). -/
structure Compliance where
  word_count : Bool
  first_letter : Bool
  punctuation : Bool

/-- Embedding of `scraper.check_rules_compliance`, returning the compliance
flag paired with the list of broken-rule names. -/
def check_rules_compliance (content : String) (word_count_ : Nat) : Bool × List String :=
  let comp0 : Compliance := ⟨true, true, true⟩
  let comp1 := if word_count_ < 5 then { comp0 with word_count := false } else comp0
  let comp2 :=
    match content.data with
    | [] => { comp1 with first_letter := false, punctuation := false }
    | c :: cs =>
      let compA := if pyUpperChar c ≠ c then { comp1 with first_letter := false } else comp1
      if pyIsPunct ((c :: cs).getLast (List.cons_ne_nil c cs)) then compA
      else if textual_emotes.any (fun e => pyEndsWith content e) then compA
      else { compA with punctuation := false }
  let broken : List String :=
    (if comp2.word_count then [] else ["word_count"]) ++
      (if comp2.first_letter then [] else ["first_letter"]) ++
        (if comp2.punctuation then [] else ["punctuation"])
  (!(broken.any fun s => !s.isEmpty), broken)

/-- The `word_count` check of `check_rules_compliance` in isolation: true
when the rule is broken. -/
def word_count_fails (word_count_ : Nat) : Bool := decide (word_count_ < 5)

/-- The `first_letter` check in isolation: broken on empty content, or when
upper-casing the first character changes it. -/
def first_letter_fails (content : String) : Bool :=
  match content.data with
  | [] => true
  | c :: _ => decide (pyUpperChar c ≠ c)

/-- The `punctuation` check in isolation: broken on empty content, or when
the last character is no punctuation and no allow-listed emote ends the
content. -/
def punctuation_fails (content : String) : Bool :=
  match content.data with
  | [] => true
  | c :: cs =>
    if pyIsPunct ((c :: cs).getLast (List.cons_ne_nil c cs)) then false
    else !(textual_emotes.any fun e => pyEndsWith content e)

/-- The broken-rule names in the fixed insertion order of the `compliance`
dict. -/
def failed_checks (content : String) (word_count_ : Nat) : List String :=
  (if word_count_fails word_count_ then ["word_count"] else []) ++
    (if first_letter_fails content then ["first_letter"] else []) ++
      (if punctuation_fails content then ["punctuation"] else [])

/-! ### Helper lemmas about digits and decimal rendering -/

theorem dval_digitChar : ∀ d, d < 10 → dval (digitChar d) = d := by decide

theorem pyIsDigit_digitChar : ∀ d, d < 10 → pyIsDigit (digitChar d) = true := by decide

theorem foldl_digits_init (ds : List Char) : ∀ a : Nat,
    ds.foldl (fun x c => 10 * x + dval c) a = a * 10 ^ ds.length + digitsVal ds := by
  induction ds with
  | nil => intro a; simp [digitsVal]
  | cons c cs ih =>
    intro a
    show cs.foldl _ (10 * a + dval c) = a * 10 ^ (c :: cs).length + digitsVal (c :: cs)
    have h2 : digitsVal (c :: cs) = dval c * 10 ^ cs.length + digitsVal cs := by
      show cs.foldl _ (10 * 0 + dval c) = _
      rw [ih (10 * 0 + dval c)]; ring
    rw [ih (10 * a + dval c), h2, List.length_cons]; ring

theorem digitsVal_cons (c : Char) (cs : List Char) :
    digitsVal (c :: cs) = dval c * 10 ^ cs.length + digitsVal cs := by
  show cs.foldl _ (10 * 0 + dval c) = _
  rw [foldl_digits_init cs (10 * 0 + dval c)]; ring

theorem digitsVal_append (ds es : List Char) :
    digitsVal (ds ++ es) = digitsVal ds * 10 ^ es.length + digitsVal es := by
  show (ds ++ es).foldl _ 0 = _
  rw [List.foldl_append]
  exact foldl_digits_init es _

theorem dval_le_nine {c : Char} (hc : pyIsDigit c = true) : dval c ≤ 9 := by
  simp only [pyIsDigit, decide_eq_true_eq] at hc
  unfold dval; omega

theorem digitsVal_lt (ds : List Char) (h : ∀ c ∈ ds, pyIsDigit c = true) :
    digitsVal ds < 10 ^ ds.length := by
  induction ds with
  | nil => simp [digitsVal]
  | cons c cs ih =>
    rw [digitsVal_cons]
    have h9 : dval c ≤ 9 := dval_le_nine (h c (by simp))
    have hlt : digitsVal cs < 10 ^ cs.length := ih (fun d hd => h d (by simp [hd]))
    have hm : dval c * 10 ^ cs.length ≤ 9 * 10 ^ cs.length := Nat.mul_le_mul_right _ h9
    have hp : (10 : Nat) ^ (c :: cs).length = 10 * 10 ^ cs.length := by
      rw [List.length_cons]; ring
    rw [hp]; linarith

theorem char_eq_of_toNat {a b : Char} (h : a.toNat = b.toNat) : a = b := by
  have ha := Char.ofNat_toNat a
  have hb := Char.ofNat_toNat b
  rw [← ha, ← hb, h]

theorem digitsVal_lt_of_head {c e : Char} {cs es : List Char} (hlen : cs.length = es.length)
    (hcs : ∀ d ∈ cs, pyIsDigit d = true) (h : dval c < dval e) :
    digitsVal (c :: cs) < digitsVal (e :: es) := by
  rw [digitsVal_cons, digitsVal_cons, hlen]
  have h1 : digitsVal cs < 10 ^ es.length := hlen ▸ digitsVal_lt cs hcs
  have h2 : (dval c + 1) * 10 ^ es.length ≤ dval e * 10 ^ es.length :=
    Nat.mul_le_mul_right _ (by omega)
  have h3 : (dval c + 1) * 10 ^ es.length = dval c * 10 ^ es.length + 10 ^ es.length := by ring
  linarith

/-! ### Helper lemmas about the lexicographic comparison -/

theorem listLtb_self : ∀ t : List Char, listLtb t t = false := by
  intro t
  induction t with
  | nil => rfl
  | cons c cs ih => simp only [listLtb, if_neg (lt_irrefl c), ih]

theorem listLtb_append_left (l : List Char) : ∀ x y : List Char,
    listLtb (l ++ x) (l ++ y) = listLtb x y := by
  induction l with
  | nil => intro x y; rfl
  | cons c cs ih =>
    intro x y
    simp only [List.cons_append, listLtb, if_neg (lt_irrefl c)]
    exact ih x y

theorem listLtb_digits : ∀ (ds es t : List Char), ds.length = es.length →
    (∀ c ∈ ds, pyIsDigit c = true) → (∀ c ∈ es, pyIsDigit c = true) →
    (listLtb (ds ++ t) (es ++ t) = true ↔ digitsVal ds < digitsVal es) := by
  intro ds
  induction ds with
  | nil =>
    intro es t hlen _ _
    have hes : es = [] := List.eq_nil_of_length_eq_zero hlen.symm
    subst hes
    simp [listLtb_self, digitsVal]
  | cons c cs ih =>
    intro es t hlen hds hes
    cases es with
    | nil => simp at hlen
    | cons e es' =>
      have hlen' : cs.length = es'.length := by simpa using hlen
      have hc : pyIsDigit c = true := hds c (by simp)
      have he : pyIsDigit e = true := hes e (by simp)
      have hcs : ∀ d ∈ cs, pyIsDigit d = true := fun d hd => hds d (by simp [hd])
      have hes' : ∀ d ∈ es', pyIsDigit d = true := fun d hd => hes d (by simp [hd])
      have hc48 : 48 ≤ c.toNat ∧ c.toNat ≤ 57 := by
        simpa only [pyIsDigit, decide_eq_true_eq] using hc
      have he48 : 48 ≤ e.toNat ∧ e.toNat ≤ 57 := by
        simpa only [pyIsDigit, decide_eq_true_eq] using he
      rcases Nat.lt_trichotomy c.toNat e.toNat with h | h | h
      · have hlt : c < e := h
        have hdv : dval c < dval e := by unfold dval; omega
        simp only [List.cons_append, listLtb, if_pos hlt, true_iff]
        exact digitsVal_lt_of_head hlen' hcs hdv
      · have hce : c = e := char_eq_of_toNat h
        subst hce
        simp only [List.cons_append, listLtb, if_neg (lt_irrefl c), List.append_eq]
        rw [ih es' t hlen' hcs hes', digitsVal_cons, digitsVal_cons, hlen']
        generalize dval c * 10 ^ es'.length = X
        omega
      · have hlt : e < c := h
        have hnlt : ¬ c < e := by
          intro hcc
          have hcc' : c.toNat < e.toNat := hcc
          omega
        simp only [List.cons_append, listLtb, if_neg hnlt, if_pos hlt, Bool.false_eq_true,
          false_iff]
        intro hval
        have := digitsVal_lt_of_head hlen'.symm hes' (show dval e < dval c by unfold dval; omega)
        omega

/-! ### Helper lemmas about zfill and natDecimal -/

theorem zfill_length (w : Nat) (s : List Char) : (zfill w s).length = max w s.length := by
  simp only [zfill, List.length_append, List.length_replicate]
  omega

theorem digitsVal_replicate_zero (k : Nat) : digitsVal (List.replicate k '0') = 0 := by
  induction k with
  | zero => rfl
  | succ n ih =>
    rw [List.replicate_succ, digitsVal_cons, ih]
    have h0 : dval '0' = 0 := rfl
    rw [h0]; ring

theorem digitsVal_zfill (w : Nat) (s : List Char) : digitsVal (zfill w s) = digitsVal s := by
  unfold zfill
  rw [digitsVal_append, digitsVal_replicate_zero]
  ring

theorem zfill_digits (w : Nat) (s : List Char) (h : ∀ c ∈ s, pyIsDigit c = true) :
    ∀ c ∈ zfill w s, pyIsDigit c = true := by
  intro c hc
  rcases List.mem_append.1 hc with h1 | h2
  · rw [List.eq_of_mem_replicate h1]; rfl
  · exact h c h2

theorem natDecimalAux_digits : ∀ (fuel n : Nat), ∀ c ∈ natDecimalAux fuel n,
    pyIsDigit c = true := by
  intro fuel
  induction fuel with
  | zero => intro n c hc; simp [natDecimalAux] at hc
  | succ f ih =>
    intro n c hc
    rw [natDecimalAux] at hc
    by_cases h : n < 10
    · rw [if_pos h] at hc
      simp only [List.mem_singleton] at hc
      subst hc
      exact pyIsDigit_digitChar n h
    · rw [if_neg h] at hc
      rcases List.mem_append.1 hc with h1 | h2
      · exact ih (n / 10) c h1
      · simp only [List.mem_singleton] at h2
        subst h2
        exact pyIsDigit_digitChar (n % 10) (Nat.mod_lt n (by omega))

theorem natDecimalAux_val : ∀ (fuel n : Nat), n < 10 ^ fuel →
    digitsVal (natDecimalAux fuel n) = n := by
  intro fuel
  induction fuel with
  | zero =>
    intro n h
    simp only [pow_zero, Nat.lt_one_iff] at h
    subst h
    rfl
  | succ f ih =>
    intro n h
    rw [natDecimalAux]
    by_cases h10 : n < 10
    · rw [if_pos h10]
      have h1 : digitsVal [digitChar n] = dval (digitChar n) := by
        rw [digitsVal_cons]; simp [digitsVal]
      rw [h1, dval_digitChar n h10]
    · rw [if_neg h10, digitsVal_append]
      have hdiv : n / 10 < 10 ^ f := by
        rw [Nat.div_lt_iff_lt_mul (by norm_num : (0:Nat) < 10)]
        calc n < 10 ^ (f + 1) := h
          _ = 10 ^ f * 10 := by ring
      rw [ih (n / 10) hdiv]
      have h1 : digitsVal [digitChar (n % 10)] = n % 10 := by
        rw [digitsVal_cons]
        simp only [List.length_nil, pow_zero, mul_one, digitsVal, List.foldl_nil]
        rw [dval_digitChar _ (Nat.mod_lt n (by omega))]
        ring
      rw [h1]
      simp only [List.length_singleton, pow_one]
      omega

theorem natDecimalAux_ne_nil : ∀ (fuel n : Nat), 0 < fuel → natDecimalAux fuel n ≠ [] := by
  intro fuel n hf
  obtain ⟨f, rfl⟩ : ∃ f, fuel = f + 1 := ⟨fuel - 1, by omega⟩
  rw [natDecimalAux]
  split
  · simp
  · simp

theorem natDecimalAux_length : ∀ (fuel n k : Nat), n < 10 ^ (k + 1) →
    (natDecimalAux fuel n).length ≤ k + 1 := by
  intro fuel
  induction fuel with
  | zero => intro n k _; simp [natDecimalAux]
  | succ f ih =>
    intro n k h
    rw [natDecimalAux]
    by_cases h10 : n < 10
    · rw [if_pos h10]; simp
    · rw [if_neg h10]
      obtain ⟨k', rfl⟩ : ∃ k', k = k' + 1 := by
        refine ⟨k - 1, ?_⟩
        rcases Nat.eq_zero_or_pos k with rfl | hk
        · exfalso; rw [pow_one] at h; omega
        · omega
      have hdiv : n / 10 < 10 ^ (k' + 1) := by
        rw [Nat.div_lt_iff_lt_mul (by norm_num : (0:Nat) < 10)]
        calc n < 10 ^ (k' + 1 + 1) := h
          _ = 10 ^ (k' + 1) * 10 := by ring
      have := ih (n / 10) k' hdiv
      simp only [List.length_append, List.length_singleton]
      omega

theorem natDecimal_val (n : Nat) : digitsVal (natDecimal n) = n := by
  refine natDecimalAux_val (n + 1) n ?_
  have h2 : n < 2 ^ n := Nat.lt_two_pow n
  have h3 : (2 : Nat) ^ n ≤ 10 ^ n := Nat.pow_le_pow_left (by norm_num) n
  have h4 : (10 : Nat) ^ n ≤ 10 ^ (n + 1) := Nat.pow_le_pow_right (by norm_num) (by omega)
  omega

theorem natDecimal_digits (n : Nat) : ∀ c ∈ natDecimal n, pyIsDigit c = true :=
  natDecimalAux_digits _ _

theorem natDecimal_ne_nil (n : Nat) : natDecimal n ≠ [] :=
  natDecimalAux_ne_nil _ _ (by omega)

theorem natDecimal_length (n k : Nat) (h : n < 10 ^ (k + 1)) : (natDecimal n).length ≤ k + 1 :=
  natDecimalAux_length _ _ _ h

theorem pageScan_digits_append : ∀ (ds : List Char) (rest : List Char) (fuel : Nat),
    (∀ c ∈ ds, pyIsDigit c = true) → ds.length < fuel →
    pageScan fuel (ds ++ '-' :: rest) = some ds := by
  intro ds
  induction ds with
  | nil =>
    intro rest fuel _ hf
    obtain ⟨f, rfl⟩ : ∃ f, fuel = f + 1 := ⟨fuel - 1, by omega⟩
    simp [pageScan, show pyIsDigit '-' = false from rfl]
  | cons d ds' ih =>
    intro rest fuel hd hf
    obtain ⟨f, rfl⟩ : ∃ f, fuel = f + 1 := ⟨fuel - 1, by omega⟩
    have hdd : pyIsDigit d = true := hd d (by simp)
    have hlen : ds'.length < f := by
      simp only [List.length_cons] at hf
      omega
    simp only [List.cons_append, pageScan, hdd, if_true, List.append_eq]
    rw [ih rest f (fun c hc => hd c (by simp [hc])) hlen]
    rfl

theorem pySplit_ne_nil (p : Char → Bool) (l : List Char) : pySplit p l ≠ [] := by
  induction l with
  | nil => simp [pySplit]
  | cons c cs ih =>
    simp only [pySplit]
    rcases h : pySplit p cs with _ | ⟨t, ts⟩
    · simp
    · by_cases hp : p c = true <;> simp [h, hp]

/-! ### The claims -/

/-- C1 (counterexample): the round trip `get_page_from_url ∘ get_url_for_page`
does NOT return the page number: the address built for page 2 of base `t/`
extracts to page 1, because the built address ends with the path
separator. -/
theorem url_page_roundtrip_cex :
    ¬ (get_page_from_url (get_url_for_page "t/" 2) = some 2) := by decide

/-- C1 (amended): an address built by `get_url_for_page` always ends in the
path separator, so `get_page_from_url` maps it to page 1 regardless of the
page it was built for; the round trip returns the built page only after the
trailing separator is removed (for page numbers up to the miner's 1,000,000
page bound). -/
theorem url_page_roundtrip_amended :
    (∀ (base_url : String) (n : Nat), 1 ≤ n →
      get_page_from_url (get_url_for_page base_url n) = some 1) ∧
    (∀ (base_url : String) (n : Nat), 1 ≤ n → n ≤ 1000000 →
      get_page_from_url (base_url ++ "page-" ++ String.mk (natDecimal n)) = some n) := by
  constructor
  · intro base_url n _
    have hdata : (get_url_for_page base_url n).data =
        (base_url.data ++ "page-".data ++ natDecimal n) ++ ['/'] := by
      simp [get_url_for_page, String.data_append]
    unfold get_page_from_url
    rw [hdata, List.getLast?_append]
    simp
  · intro base_url n _ hn
    have hdata : (base_url ++ "page-" ++ String.mk (natDecimal n)).data =
        (base_url.data ++ "page-".data) ++ natDecimal n := by
      simp [String.data_append]
    have hne : natDecimal n ≠ [] := natDecimal_ne_nil n
    have hlast : (base_url ++ "page-" ++ String.mk (natDecimal n)).data.getLast? =
        some ((natDecimal n).getLast hne) := by
      rw [hdata, List.getLast?_append, List.getLast?_eq_getLast _ hne]
      rfl
    have hdig : pyIsDigit ((natDecimal n).getLast hne) = true :=
      natDecimal_digits n _ (List.getLast_mem hne)
    have hslash : ¬ ((natDecimal n).getLast hne = '/') := by
      intro h
      rw [h] at hdig
      exact absurd hdig (by decide)
    have hlen : (natDecimal n).reverse.length < 999999 := by
      rw [List.length_reverse]
      have h7 : (natDecimal n).length ≤ 7 := by
        refine natDecimal_length n 6 ?_
        norm_num
        omega
      omega
    have hscan : pageScan 999999 (base_url ++ "page-" ++
        String.mk (natDecimal n)).data.reverse = some (natDecimal n).reverse := by
      have hrev : (base_url ++ "page-" ++ String.mk (natDecimal n)).data.reverse =
          (natDecimal n).reverse ++
            '-' :: ('e' :: 'g' :: 'a' :: 'p' :: base_url.data.reverse) := by
        rw [hdata, List.reverse_append, List.reverse_append]
        rfl
      rw [hrev]
      exact pageScan_digits_append _ _ _
        (fun c hc => natDecimal_digits n c (List.mem_reverse.1 hc)) hlen
    simp only [get_page_from_url, hlast, hscan]
    rw [if_neg hslash]
    rw [if_neg (by simpa using hne)]
    rw [List.reverse_reverse, natDecimal_val]

/-- C1 (witness for the amended theorem): at base `t/` and page 5, the built
address extracts to page 1, and the separator-stripped address extracts to
page 5. -/
theorem url_page_roundtrip_witness :
    get_page_from_url (get_url_for_page "t/" 5) = some 1 ∧
    get_page_from_url ("t/" ++ "page-" ++ String.mk (natDecimal 5)) = some 5 :=
  ⟨url_page_roundtrip_amended.1 "t/" 5 (by decide),
    url_page_roundtrip_amended.2 "t/" 5 (by decide) (by decide)⟩

/-- C2 (code-bug evaluation): `_count_words` counts the empty token that a
trailing period produces — on `"a."` it returns 2, while the number of
non-empty tokens (which both the claim and the function's own docstring
describe) is 1. -/
theorem count_words_counts_empty_tokens :
    count_words "a." = 2 ∧ spec_word_count "a." = 1 := by decide

/-- C3 (counterexample): with 4 user-identifier entries and overflow text
`+7`, `get_amount_of_likes` returns 7 + 4 = 11, not overflow plus the
threshold 3 as the claim states. -/
theorem likes_overflow_cex :
    ¬ (get_amount_of_likes (some ⟨4, "+7"⟩) = 7 + 3) := by decide

/-- C3 (amended): no reactions bar gives 0; fewer than 3 identifier entries
give that exact count; at 3 or more entries, a parseable overflow number is
added to the NUMBER OF IDENTIFIER ENTRIES (which equals the threshold 3
exactly when 3 entries are shown); with no parseable overflow number the
entry count is returned. -/
theorem get_amount_of_likes_spec :
    get_amount_of_likes none = 0 ∧
    (∀ bar : ReactionsBar, bar.bdi_count < 3 →
      get_amount_of_likes (some bar) = bar.bdi_count) ∧
    (∀ (bar : ReactionsBar) (extra : Nat), 3 ≤ bar.bdi_count →
      firstNat bar.stripped_text = some extra →
      get_amount_of_likes (some bar) = extra + bar.bdi_count) ∧
    (∀ bar : ReactionsBar, 3 ≤ bar.bdi_count → firstNat bar.stripped_text = none →
      get_amount_of_likes (some bar) = bar.bdi_count) := by
  refine ⟨rfl, ?_, ?_, ?_⟩
  · intro bar h
    simp only [get_amount_of_likes]
    rw [if_pos h]
  · intro bar extra h3 hf
    simp only [get_amount_of_likes, hf]
    rw [if_neg (by omega)]
  · intro bar h3 hf
    simp only [get_amount_of_likes, hf]
    rw [if_neg (by omega)]

/-- C3 (witness): a reactions bar with exactly 3 identifier entries and
overflow text `+7` yields a like count of 10, as the spec example says. -/
theorem get_amount_of_likes_witness :
    get_amount_of_likes (some ⟨3, "+7"⟩) = 10 :=
  get_amount_of_likes_spec.2.2.1 ⟨3, "+7"⟩ 7 (by decide) (by decide)

/-- C4: `check_rules_compliance` returns as reasons exactly the names of
the checks that failed, always in the fixed order `word_count`,
`first_letter`, `punctuation`, and its boolean result is true if and only
if the reasons list is empty. -/
theorem check_rules_compliance_reasons (content : String) (word_count_ : Nat) :
    (check_rules_compliance content word_count_).2 = failed_checks content word_count_ ∧
    ((check_rules_compliance content word_count_).1 = true ↔
      (check_rules_compliance content word_count_).2 = []) := by
  obtain ⟨data⟩ := content
  cases data with
  | nil =>
    by_cases hw : word_count_ < 5 <;>
      simp [check_rules_compliance, failed_checks, word_count_fails, first_letter_fails,
        punctuation_fails, hw] <;>
      decide
  | cons c cs =>
    by_cases hw : word_count_ < 5 <;>
      by_cases hfl : pyUpperChar c ≠ c <;>
        by_cases hp : pyIsPunct ((c :: cs).getLast (List.cons_ne_nil c cs)) = true <;>
          by_cases he : (textual_emotes.any fun e => pyEndsWith ⟨c :: cs⟩ e) = true <;>
            simp [check_rules_compliance, failed_checks, word_count_fails, first_letter_fails,
              punctuation_fails, hw, hfl, hp, he] <;>
            decide

/-- C5 (counterexample): classifying `"hello world today now"` with the
program's own word count (which is 4, not 5) does not yield the reasons
`[first_letter, punctuation]` — `word_count` is broken too. -/
theorem compliance_example_cex :
    ¬ ((check_rules_compliance "hello world today now"
        (count_words "hello world today now")).2 = ["first_letter", "punctuation"]) := by
  decide

/-- C5 (amended): with the program's own word counts,
`"hello world today now"` (4 words) is non-compliant with reasons
`word_count`, `first_letter` and `punctuation`, and
`"Hello world today now."` is compliant with an empty reasons list. -/
theorem compliance_examples_amended :
    check_rules_compliance "hello world today now" (count_words "hello world today now") =
      (false, ["word_count", "first_letter", "punctuation"]) ∧
    check_rules_compliance "Hello world today now." (count_words "Hello world today now.") =
      (true, []) := by decide

/-- C6: on a directory holding exactly the page files 1 through 5 (in
either listing order) and a thread whose resolved last page is 8,
`fetch_new_pages` fetches and persists exactly pages 5, 6, 7 and 8 —
re-fetching page 5 and no earlier page. -/
theorem fetch_new_pages_resume :
    fetch_new_pages [page_filename 1, page_filename 2, page_filename 3, page_filename 4,
        page_filename 5] 8 = Except.ok [5, 6, 7, 8] ∧
    fetch_new_pages [page_filename 3, page_filename 1, page_filename 4, page_filename 5,
        page_filename 2] 8 = Except.ok [5, 6, 7, 8] :=
  ⟨rfl, rfl⟩

/-- C7: on an empty directory listing, `fetch_new_pages` raises the
configuration error (Python `ValueError`) before any fetch — the result is
the error, so no page is fetched or persisted. -/
theorem fetch_new_pages_empty_dir (last_page : Nat) :
    fetch_new_pages [] last_page = Except.error emptyDirMessage := rfl

/-- C8: for the same thread address and the same deterministic per-page
responses, the concurrent fetch mode persists — in whatever order the
scheduler completes the writes — exactly the same multiset of
(file name, content) pairs as the linear mode. -/
theorem concurrent_matches_linear (fetch : String → String) (base_url : String)
    (pages completion_order : List Nat) (h : completion_order.Perm pages) :
    (fetch_and_save_pages_concurrently fetch base_url pages completion_order).Perm
      (fetch_and_save_pages_linearly fetch base_url pages) :=
  h.map (fetch_and_save fetch base_url)

/-- C8 (witness): pages 1, 2, 3 written in completion order 3, 1, 2 give a
permutation of the linear mode's files. -/
theorem concurrent_matches_linear_witness :
    (fetch_and_save_pages_concurrently (fun u => u ++ u) "b/" [1, 2, 3] [3, 1, 2]).Perm
      (fetch_and_save_pages_linearly (fun u => u ++ u) "b/" [1, 2, 3]) :=
  concurrent_matches_linear (fun u => u ++ u) "b/" [1, 2, 3] [3, 1, 2] (by decide)

/-- C9 (counterexample): the lexicographic order of the generated file
names does not equal the numeric page order for all pages: page 10000's
file name sorts before page 9999's. -/
theorem page_filename_order_cex :
    ¬ (listLtb (page_filename 9999).data (page_filename 10000).data = true ↔
      9999 < 10000) := by decide

/-- C9 (amended): `save_page` persists to a file name whose digit field is
the page number zero-filled to at least 4 digits, and for page numbers up
to 9999 (where the field stays exactly 4 digits wide) the lexicographic
order of the generated file names coincides with the numeric page order, so
the highest such page number in a directory is its lexicographically
greatest file name. -/
theorem page_filename_order_amended :
    (∀ n : Nat, 4 ≤ (zfill 4 (natDecimal n)).length ∧
      digitsVal (zfill 4 (natDecimal n)) = n) ∧
    (∀ m n : Nat, m ≤ 9999 → n ≤ 9999 →
      (listLtb (page_filename m).data (page_filename n).data = true ↔ m < n)) := by
  constructor
  · intro n
    constructor
    · rw [zfill_length]; omega
    · rw [digitsVal_zfill, natDecimal_val]
  · intro m n hm hn
    have hfield : ∀ p : Nat, p ≤ 9999 → (zfill 4 (natDecimal p)).length = 4 := by
      intro p hp
      rw [zfill_length]
      have h4 : (natDecimal p).length ≤ 4 := by
        refine natDecimal_length p 3 ?_
        norm_num
        omega
      omega
    have hdata : ∀ p : Nat, (page_filename p).data =
        "page_".data ++ (zfill 4 (natDecimal p) ++ ".html".data) := fun p => rfl
    rw [hdata, hdata, listLtb_append_left]
    rw [listLtb_digits (zfill 4 (natDecimal m)) (zfill 4 (natDecimal n)) ".html".data
      (by rw [hfield m hm, hfield n hn]) (zfill_digits _ _ (natDecimal_digits m))
      (zfill_digits _ _ (natDecimal_digits n))]
    rw [digitsVal_zfill, digitsVal_zfill, natDecimal_val, natDecimal_val]

/-- C9 (witness for the amended theorem): the digit field of page 7 carries
the value 7 at width at least 4, and page 5's file name sorts before page
12's. -/
theorem page_filename_order_witness :
    digitsVal (zfill 4 (natDecimal 7)) = 7 ∧
    listLtb (page_filename 5).data (page_filename 12).data = true :=
  ⟨(page_filename_order_amended.1 7).2,
    (page_filename_order_amended.2 5 12 (by decide) (by decide)).mpr (by decide)⟩

/-- C10: `_count_words` returns at least 1 on every string (Python's
`re.split` always yields at least one chunk), so a record's word count and
the count handed to the rules classifier are never 0. -/
theorem count_words_ge_one (s : String) : 1 ≤ count_words s := by
  have h := pySplit_ne_nil pyDelim s.data
  have hp := List.length_pos.mpr h
  simpa [count_words] using hp

end UwStats
